import Mathlib

/-!
# `h`: querying GPT models from the terminal

A shallow embedding of `src/index.js` and the properties of its plumbing:
model validation, data-directory initialisation, the `--continue` loader,
the editor launcher and the naming of archived prompt files.

Conventions of the embedding.

* JavaScript strings are Lean `String`s; functions that scan a string work on
  its list of characters.
* Built-ins of the runtime (`String.prototype.replace` with a character class,
  `split(/\s+/)`, `Date.prototype.toISOString`, `path.join`, the `fs/promises`
  calls) are given by small executable models.
* `String.prototype.toLowerCase` depends on the Unicode case tables of the
  runtime, which are not part of the repository: it is a parameter `lower` of
  every function that calls it.  What the properties need of it is stated in
  `LowerCaseLaws`; `sampleLower` is a fragment of the real mapping on which
  the functions can be evaluated.
* Code that has effects threads an explicit `World`: the file system, the
  calls made so far, and what was printed.  The file system maps the paths
  that exist to a file or a directory; a call fails when the path, or its
  parent, is not what the call needs.  Permissions are not modelled.
* A thrown exception, or the rejection of an awaited promise, is
  `Except.error`; `openEditor`, which builds its promise by hand, returns how
  that promise ends.
-/

namespace H

/-! ## Strings -/

/-- Characters matched by the class `[/\\?%*:|"<>]` in `sanitizeFileName`. -/
def reservedChars : List Char :=
  ['/', '\\', '?', '%', '*', ':', '|', '"', '<', '>']

/-- Characters matched by the class `[:.]` in `getTempFilePath`. -/
def timeChars : List Char := [':', '.']

/-- The call `s.replace(/[cls]/g, r)` for a one-character replacement `r`. -/
def replaceClass (cls : List Char) (r : Char) (s : String) : String :=
  ⟨s.data.map fun c => if c ∈ cls then r else c⟩

/-- Characters matched by `\s`: the ECMAScript white space and line
terminator code points. -/
def isWhiteSpace (c : Char) : Bool :=
  let n := c.toNat
  (9 ≤ n && n ≤ 13) || n == 32 || n == 160 || n == 5760 ||
    (8192 ≤ n && n ≤ 8202) || n == 8232 || n == 8233 || n == 8239 ||
    n == 8287 || n == 12288 || n == 65279

/-- Scanning loop of `split(/\s+/)`.  `cur` is the piece being read and
`inMatch` tells whether the previous character belonged to a match of `\s+`:
a match closes the current piece, and the characters of the same match are
skipped. -/
def splitWhitespace.go : List Char → Bool → List Char → List (List Char)
  | cur, _, [] => [cur]
  | cur, inMatch, c :: cs =>
    if isWhiteSpace c then
      if inMatch then go [] true cs else cur :: go [] true cs
    else go (cur ++ [c]) false cs

/-- The call `s.split(/\s+/)`. -/
def splitWhitespace (s : String) : List String :=
  (splitWhitespace.go [] false s.data).map String.mk

/-- The call `xs.join(sep)`. -/
def join (sep : String) : List String → String
  | [] => ""
  | [x] => x
  | x :: y :: rest => x ++ sep ++ join sep (y :: rest)

/-- The call `path.join(dir, name)` for a normalised `dir` without a trailing
separator and a single segment `name`. -/
def pathJoin (dir name : String) : String :=
  dir ++ "/" ++ name

/-- The call `path.dirname(p)`: everything before the last separator. -/
def dirname (p : String) : String :=
  ⟨((p.data.reverse.dropWhile fun c => c != '/').drop 1).reverse⟩

/-! ## Dates -/

/-- A point in time, by its UTC calendar fields (`month` counts from 1). -/
structure Date where
  year : Int
  month : Nat
  day : Nat
  hours : Nat
  minutes : Nat
  seconds : Nat
  milliseconds : Nat
  deriving DecidableEq, Repr

/-- The decimal digit for `n % 10`. -/
def digitChar (n : Nat) : Char :=
  Char.ofNat (48 + n % 10)

/-- The last `width` decimal digits of `n`, zero padded. -/
def padDigits : Nat → Nat → List Char
  | 0, _ => []
  | width + 1, n => padDigits width (n / 10) ++ [digitChar n]

/-- Year of an ISO-8601 timestamp: four digits from 0 to 9999, otherwise a
sign and six digits. -/
def yearDigits (y : Int) : List Char :=
  if 0 ≤ y ∧ y ≤ 9999 then padDigits 4 y.toNat
  else (if y < 0 then '-' else '+') :: padDigits 6 y.natAbs

/-- The call `date.toISOString()`: `YYYY-MM-DDTHH:mm:ss.sssZ`. -/
def toISOString (d : Date) : String :=
  ⟨yearDigits d.year ++ ['-'] ++ padDigits 2 d.month ++ ['-'] ++ padDigits 2 d.day ++
    ['T'] ++ padDigits 2 d.hours ++ [':'] ++ padDigits 2 d.minutes ++
    [':'] ++ padDigits 2 d.seconds ++ ['.'] ++ padDigits 3 d.milliseconds ++ ['Z']⟩

/-! ## Paths and file names (`index.js`, lines 10–11 and 137–152) -/

/-- The constant `dataDir`, for the home directory `home` of `os.homedir()`. -/
def dataDir (home : String) : String :=
  pathJoin home ".h-data"

/-- The constant `latestFile`. -/
def latestFile (home : String) : String :=
  pathJoin (dataDir home) "latest.json"

/-- The function `sanitizeFileName`; `lower` is `String.prototype.toLowerCase`. -/
def sanitizeFileName (lower : String → String) (input : String) : String :=
  lower (replaceClass reservedChars '#' input)

/-- The value of `timestamp` in `getTempFilePath`. -/
def timestampOf (date : Date) : String :=
  replaceClass timeChars '-' (toISOString date)

/-- The value of `words` in `getTempFilePath`. -/
def wordsOf (lower : String → String) (prompt : String) : String :=
  join "-" ((((splitWhitespace prompt).take 5).map (sanitizeFileName lower)).map lower)

/-- The template string that `getTempFilePath` joins to `dataDir`. -/
def tempFileName (lower : String → String) (date : Date) (prompt : String) : String :=
  "prompt_" ++ timestampOf date ++ "_" ++ wordsOf lower prompt ++ ".txt"

/-- The function `getTempFilePath`; `lower` is `String.prototype.toLowerCase`
and `date` is the value of `new Date()`. -/
def getTempFilePath (lower : String → String) (home : String) (date : Date)
    (prompt : String) : String :=
  pathJoin (dataDir home) (tempFileName lower date prompt)

/-! ## Errors -/

/-- The error an `Error` was built from (its `cause` option). -/
structure Cause where
  name : String
  message : String
  deriving DecidableEq, Repr

/-- A thrown JavaScript error: its `name`, `message`, the `code` of a system
error and its `cause`. -/
structure JsError where
  name : String
  message : String
  code : Option String
  cause : Option Cause
  deriving DecidableEq, Repr

/-- The expression `new Error(message)`. -/
def newError (message : String) : JsError :=
  ⟨"Error", message, none, none⟩

/-- The expression `new Error(message, { cause: err })`. -/
def newErrorWithCause (message : String) (err : JsError) : JsError :=
  ⟨"Error", message, none, some ⟨err.name, err.message⟩⟩

/-- Text that Node attaches to a system error code. -/
def describeCode (code : String) : String :=
  if code = "EEXIST" then "file already exists"
  else if code = "ENOENT" then "no such file or directory"
  else if code = "ENOTDIR" then "not a directory"
  else if code = "EISDIR" then "illegal operation on a directory"
  else "unknown error"

/-- A system error raised by an `fs` call. -/
def systemError (code syscall path : String) : JsError :=
  ⟨"Error", code ++ ": " ++ describeCode code ++ ", " ++ syscall ++ " '" ++ path ++ "'",
    some code, none⟩

/-- The error of reading a `const` inside its temporal dead zone. -/
def referenceError (ident : String) : JsError :=
  ⟨"ReferenceError", "Cannot access '" ++ ident ++ "' before initialization", none, none⟩

/-! ## The file system -/

/-- What a path names. -/
inductive Entry where
  | file (content : String)
  | dir
  deriving DecidableEq, Repr

/-- A file system: the entry of every path that exists. -/
abbrev FileSystem := List (String × Entry)

/-- A call made by the program, as recorded in the world. -/
inductive Call where
  | mkdir (path : String)
  | readFile (path : String)
  | writeFile (path data : String)
  | rename (oldPath newPath : String)
  | spawn (program arg : String)
  deriving DecidableEq, Repr

/-- The world a run acts on. -/
structure World where
  fs : FileSystem
  calls : List Call
  stdout : List String
  stderr : List String
  deriving DecidableEq, Repr

/-- The world with `c` appended to the recorded calls. -/
def World.record (w : World) (c : Call) : World :=
  { w with calls := w.calls ++ [c] }

/-- The file system with `path` bound to `e`. -/
def FileSystem.put (fs : FileSystem) (path : String) (e : Entry) : FileSystem :=
  (path, e) :: fs.filter fun q => q.1 != path

/-- The error for a path whose parent directory is `parent`, or `none` when
the parent is a directory. -/
def parentError (parent : Option Entry) : Option String :=
  match parent with
  | some Entry.dir => none
  | some (Entry.file _) => some "ENOTDIR"
  | none => some "ENOENT"

/-- The code of the error with which `fs.mkdir(path)` fails, or `none` when
it succeeds. -/
def mkdirError (path : String) (fs : FileSystem) : Option String :=
  match fs.lookup path with
  | some _ => some "EEXIST"
  | none => parentError (fs.lookup (dirname path))

/-- The call `fs.mkdir(path)`. -/
def fsMkdir (path : String) (w : World) : Except JsError Unit × World :=
  let w1 := w.record (Call.mkdir path)
  match mkdirError path w.fs with
  | some code => (Except.error (systemError code "mkdir" path), w1)
  | none => (Except.ok (), { w1 with fs := w1.fs.put path Entry.dir })

/-- The call `fs.readFile(path)`, with the content read as text. -/
def fsReadFile (path : String) (w : World) : Except JsError String × World :=
  let w1 := w.record (Call.readFile path)
  match w.fs.lookup path with
  | some (Entry.file content) => (Except.ok content, w1)
  | some Entry.dir => (Except.error (systemError "EISDIR" "read" path), w1)
  | none =>
    match w.fs.lookup (dirname path) with
    | some (Entry.file _) => (Except.error (systemError "ENOTDIR" "open" path), w1)
    | _ => (Except.error (systemError "ENOENT" "open" path), w1)

/-- The call `fs.writeFile(path, data)`. -/
def fsWriteFile (path data : String) (w : World) : Except JsError Unit × World :=
  let w1 := w.record (Call.writeFile path data)
  match w.fs.lookup path with
  | some Entry.dir => (Except.error (systemError "EISDIR" "open" path), w1)
  | some (Entry.file _) => (Except.ok (), { w1 with fs := w1.fs.put path (Entry.file data) })
  | none =>
    match parentError (w.fs.lookup (dirname path)) with
    | some code => (Except.error (systemError code "open" path), w1)
    | none => (Except.ok (), { w1 with fs := w1.fs.put path (Entry.file data) })

/-- The call `fs.rename(oldPath, newPath)` for a file `oldPath` (a directory
is moved as a single entry). -/
def fsRename (oldPath newPath : String) (w : World) : Except JsError Unit × World :=
  let w1 := w.record (Call.rename oldPath newPath)
  match w.fs.lookup oldPath with
  | none => (Except.error (systemError "ENOENT" "rename" oldPath), w1)
  | some e =>
    match parentError (w.fs.lookup (dirname newPath)) with
    | some code => (Except.error (systemError code "rename" oldPath), w1)
    | none =>
      match e, w.fs.lookup newPath with
      | Entry.file _, some Entry.dir => (Except.error (systemError "EISDIR" "rename" oldPath), w1)
      | Entry.dir, some (Entry.file _) =>
        (Except.error (systemError "ENOTDIR" "rename" oldPath), w1)
      | _, _ =>
        (Except.ok (),
          { w1 with fs := FileSystem.put (w1.fs.filter fun q => q.1 != oldPath) newPath e })

/-! ## Initialisation (`index.js`, lines 21–39) -/

/-- The function `init`. -/
def init (home : String) (w : World) : Except JsError Unit × World :=
  match fsMkdir (dataDir home) w with
  | (Except.error err, w1) =>
    if err.code = some "EEXIST" then (Except.ok (), w1) -- return; // great
    else (Except.error err, w1)
  | (Except.ok (), w1) =>
    match fsReadFile (latestFile home) w1 with
    | (Except.ok _, w2) => (Except.ok (), w2)
    | (Except.error err, w2) =>
      if err.code = some "ENOENT" then
        match fsWriteFile (latestFile home) "" w2 with
        | (Except.error werr, w3) => (Except.error werr, w3)
        | (Except.ok (), w3) => (Except.error err, w3) -- throw err
      else (Except.error err, w2)

/-! ## The editor launcher (`index.js`, lines 109–135) -/

/-- How a promise ends: resolved, rejected, or never settled because an error
was thrown where nothing handles it (`unhandled`). -/
inductive Promise (α : Type) where
  | resolved (value : α)
  | rejected (err : JsError)
  | pending (unhandled : JsError)
  deriving DecidableEq, Repr

/-- What `spawn` reports for the child process: the `exit` event with the file
system the child left and its exit code (`none` is the code `null` of a child
ended by a signal), or the `error` event of a child that could not start. -/
inductive ChildResult where
  | exit (fs : FileSystem) (code : Option Nat)
  | failed (err : JsError)

/-- The process environment of a run. -/
structure Env where
  /-- The result of `os.homedir()`. -/
  home : String
  /-- The value of `process.env.EDITOR`. -/
  editorVar : Option String
  /-- The method `String.prototype.toLowerCase` of the runtime. -/
  toLowerCase : String → String
  /-- The behaviour of the program started by `spawn(program, [arg])`. -/
  child : String → String → FileSystem → ChildResult

/-- The expression `process.env.EDITOR || 'vi'`. -/
def editorOf (env : Env) : String :=
  match env.editorVar with
  | some e => if e = "" then "vi" else e
  | none => "vi"

/-- Interpolation of the exit code in a template string. -/
def showCode : Option Nat → String
  | some n => toString n
  | none => "null"

/-- The placeholder written to the temporary file. -/
def placeholder : String := "Replace this file with your prompt."

/-- The function `openEditor`.  `t0` is the time at which the temporary file
is named and `t1` the time at which the archival name is computed. -/
def openEditor (env : Env) (t0 t1 : Date) (w : World) : Promise String × World :=
  let editor := editorOf env
  let tmpFile := getTempFilePath env.toLowerCase env.home t0 ""
  match fsWriteFile tmpFile placeholder w with
  | (Except.error err, w1) => (Promise.pending err, w1)
  | (Except.ok (), w1) =>
    let w2 := w1.record (Call.spawn editor tmpFile)
    match env.child editor tmpFile w2.fs with
    | ChildResult.failed err => (Promise.pending err, w2)
    | ChildResult.exit fs code =>
      let w3 := { w2 with fs := fs }
      if code = some 0 then
        match fsReadFile tmpFile w3 with
        | (Except.error err, w4) => (Promise.pending err, w4)
        | (Except.ok prompt, w4) =>
          let newPath := getTempFilePath env.toLowerCase env.home t1 prompt
          match fsRename tmpFile newPath w4 with
          | (Except.error err, w5) => (Promise.pending err, w5)
          | (Except.ok (), w5) =>
            (Promise.resolved prompt,
              { w5 with stdout := w5.stdout ++ ["Saving prompt to: " ++ newPath] })
      else (Promise.rejected (newError ("Editor exited with code: " ++ showCode code)), w3)

/-! ## The command-line action (`index.js`, lines 12–19 and 70–105) -/

/-- The constant `validModels`. -/
def validModels : List String :=
  ["gpt-4", "gpt-4-0314", "gpt-4-32k", "gpt-4-32k-0314", "gpt-3.5-turbo", "gpt-3.5-turbo-0301"]

/-- The default of the option `--model`. -/
def defaultModel : String := "gpt-3.5-turbo"

/-- The parsed command-line options. -/
structure Options where
  model : String
  prompt : Option String
  continueFlag : Bool
  deriving DecidableEq, Repr

/-- The value of `formattedModels`. -/
def formattedModels : String :=
  join "\n" (validModels.map fun m => "  " ++ m)

/-- The model check at the start of the action (lines 72–77). -/
def checkModel (model : String) : Except JsError Unit :=
  if validModels.contains model then Except.ok ()
  else
    Except.error
      (newError ("Model '" ++ model ++ "' does not exist, choose one from:\n" ++ formattedModels))

/-- The state of a binding: a `const` is uninitialised from the start of its
block until its declaration has been evaluated. -/
inductive Binding where
  | uninitialised
  | value (v : String)
  deriving DecidableEq, Repr

/-- Resolution of an identifier in a chain of scopes, innermost first: the
first scope that declares it decides, and reading an uninitialised binding
throws. -/
def resolve (ident : String) : List (List (String × Binding)) → Except JsError String
  | [] => Except.error ⟨"ReferenceError", ident ++ " is not defined", none, none⟩
  | scope :: outer =>
    match scope.lookup ident with
    | some (Binding.value v) => Except.ok v
    | some Binding.uninitialised => Except.error (referenceError ident)
    | none => resolve ident outer

/-- The module scope: the constants of lines 10–11. -/
def moduleScope (home : String) : List (String × Binding) :=
  [("dataDir", Binding.value (dataDir home)), ("latestFile", Binding.value (latestFile home))]

/-- The scope of the block of `if (options.continue)` while the initialiser
of its own `const latestFile` is evaluated (line 83). -/
def continueScope : List (String × Binding) :=
  [("latestFile", Binding.uninitialised)]

/-- The collaborators of the action that live outside `index.js`:
`JSON.parse` and `ask` of `gpt.js`, for conversations of type `J`. -/
structure Externals (J : Type) where
  jsonParse : String → Except JsError J
  ask : String → String → Option J → World → Except JsError String × World

/-- The `--continue` block (lines 82–94): the value left in `conversation`. -/
def loadConversation {J : Type} (ext : Externals J) (home : String) (w : World) :
    Except JsError (Option J) × World :=
  match resolve "latestFile" [continueScope, moduleScope home] with
  | Except.error err => (Except.error err, w)
  | Except.ok path =>
    match fsReadFile path w with
    | (Except.error err, w1) => (Except.error err, w1)
    | (Except.ok content, w1) =>
      if content ≠ "" then
        match ext.jsonParse content with
        | Except.ok conversation => (Except.ok (some conversation), w1)
        | Except.error err =>
          (Except.error
            (newErrorWithCause
              ("Expected file \"" ++ content ++
                "\" to contain a JSON-encoded conversation with GPT.") err), w1)
      else (Except.ok none, w1)

/-- The `try` block of the action (lines 72–100). -/
def actionBody {J : Type} (ext : Externals J) (env : Env) (t0 t1 : Date) (options : Options)
    (w : World) : Promise Unit × World :=
  match checkModel options.model with
  | Except.error err => (Promise.rejected err, w)
  | Except.ok () =>
    match init env.home w with
    | (Except.error err, w1) => (Promise.rejected err, w1)
    | (Except.ok (), w1) =>
      let loaded :=
        if options.continueFlag then loadConversation ext env.home w1 else (Except.ok none, w1)
      match loaded with
      | (Except.error err, w2) => (Promise.rejected err, w2)
      | (Except.ok conversation, w2) =>
        let edited :=
          match options.prompt with
          | some p => if p = "" then openEditor env t0 t1 w2 else (Promise.resolved p, w2)
          | none => openEditor env t0 t1 w2
        match edited with
        | (Promise.rejected err, w3) => (Promise.rejected err, w3)
        | (Promise.pending err, w3) => (Promise.pending err, w3)
        | (Promise.resolved prompt, w3) =>
          match ext.ask prompt options.model conversation w3 with
          | (Except.error err, w4) => (Promise.rejected err, w4)
          | (Except.ok answer, w4) =>
            (Promise.resolved (), { w4 with stdout := w4.stdout ++ [answer] })

/-- How a run of the command ends. -/
inductive Outcome where
  | completed
  | exited (status : Nat)
  | stalled (unhandled : JsError)
  deriving DecidableEq, Repr

/-- The action of the command: the `try` block and its `catch` (lines
101–104), which prints the message of the error and exits with status 1. -/
def action {J : Type} (ext : Externals J) (env : Env) (t0 t1 : Date) (options : Options)
    (w : World) : Outcome × World :=
  match actionBody ext env t0 t1 options w with
  | (Promise.resolved (), w1) => (Outcome.completed, w1)
  | (Promise.rejected err, w1) =>
    (Outcome.exited 1, { w1 with stderr := w1.stderr ++ [err.message] })
  | (Promise.pending err, w1) => (Outcome.stalled err, w1)

/-! ## Notions used to state the properties -/

/-- The lines of a text: the pieces between its line feeds. -/
def lines (s : String) : List String :=
  (s.data.splitOn '\n').map String.mk

/-- The whitespace-separated tokens of a text: its maximal runs of characters
that are not white space, in order. -/
def tokens (s : String) : List String :=
  ((s.data.splitOnP isWhiteSpace).filter fun t => !t.isEmpty).map String.mk

/-- Whether the text begins with a white space character. -/
def startsWithSpace (s : String) : Bool :=
  s.data.head?.any isWhiteSpace

/-- Whether the text ends with a white space character. -/
def endsWithSpace (s : String) : Bool :=
  s.data.getLast?.any isWhiteSpace

/-- The tokens of a text, with an empty piece in front when the text begins
with white space and an empty piece behind when it ends with white space; the
empty text has one empty piece. -/
def pieces (s : String) : List String :=
  if s = "" then [""]
  else
    (if startsWithSpace s then [""] else []) ++ tokens s ++
      (if endsWithSpace s then [""] else [])

/-- The timestamp with every `:` and `.` replaced by `-`. -/
def dashedTimestamp (date : Date) : String :=
  ⟨(toISOString date).data.map fun c => if c = ':' ∨ c = '.' then '-' else c⟩

/-- The archival path built from the first five of the given words, each
sanitized and lowercased, joined by `-`. -/
def archivalPath (lower : String → String) (home : String) (date : Date)
    (words : List String) : String :=
  dataDir home ++ "/prompt_" ++ dashedTimestamp date ++ "_" ++
    join "-" ((words.take 5).map fun t => lower (sanitizeFileName lower t)) ++ ".txt"

/-- A character that may stand in a file name of the data directory: no path
separator and no white space. -/
def isPlain (c : Char) : Bool :=
  c != '/' && c != '\\' && !isWhiteSpace c

/-- What the properties assume of the runtime's `toLowerCase`.

* `ascii`: on a text of ASCII characters it maps `A`–`Z` to `a`–`z` and
  changes nothing else.
* `fixed`: no character of a lowercased text is changed by lowercasing it
  again (the result has no upper-case letter left).
* `introduces`: a character of the result that is not in the argument (a
  lower-case letter, or a combining mark as in the mapping of `İ`) is none
  of the ten reserved characters and no white space. -/
structure LowerCaseLaws (lower : String → String) : Prop where
  ascii : ∀ s : String, (∀ c ∈ s.data, c.toNat < 128) → lower s = ⟨s.data.map Char.toLower⟩
  fixed : ∀ s : String, ∀ c ∈ (lower s).data, lower ⟨[c]⟩ = ⟨[c]⟩
  introduces : ∀ s : String, ∀ c ∈ (lower s).data, c ∉ s.data →
    c ∉ reservedChars ∧ isWhiteSpace c = false

/-- A fragment of the lowercase mapping, character by character: the ASCII
letters, `É` (U+00C9, to U+00E9) and `İ` (U+0130, to `i` and the combining dot
U+0307); every other character is left as it is. -/
def sampleLowerChar (c : Char) : List Char :=
  if c.isUpper then [c.toLower]
  else if c = Char.ofNat 201 then [Char.ofNat 233]
  else if c = Char.ofNat 304 then [Char.ofNat 105, Char.ofNat 775]
  else [c]

/-- A lowercase mapping on which the functions can be evaluated. -/
def sampleLower (s : String) : String :=
  ⟨s.data.flatMap sampleLowerChar⟩

/-! ## Characters and strings: auxiliary facts -/

theorem toLower_cases (c : Char) :
    c.toLower = c ∧ ¬(65 ≤ c.toNat ∧ c.toNat ≤ 90) ∨
      c.toLower ∈ "abcdefghijklmnopqrstuvwxyz".data := by
  unfold Char.toLower
  by_cases h : c.toNat ≥ 65 ∧ c.toNat ≤ 90
  · right
    simp only [h, and_self, if_true]
    obtain ⟨h1, h2⟩ := h
    generalize c.toNat = n at h1 h2
    interval_cases n <;> decide
  · left
    exact ⟨if_neg h, h⟩

theorem isUpper_iff (c : Char) : c.isUpper = true ↔ 65 ≤ c.toNat ∧ c.toNat ≤ 90 := by
  simp [Char.isUpper, Char.toNat, UInt32.le_def, BitVec.le_def, UInt32.toNat]

theorem isUpper_toLower (c : Char) : c.toLower.isUpper = false := by
  rcases toLower_cases c with ⟨h, hn⟩ | h
  · rw [h]
    cases hu : c.isUpper
    · rfl
    · exact absurd ((isUpper_iff c).1 hu) hn
  · exact (by decide : ∀ d ∈ "abcdefghijklmnopqrstuvwxyz".data, d.isUpper = false) _ h

theorem toLower_of_not_upper (c : Char) (h : c.isUpper = false) : c.toLower = c := by
  rcases toLower_cases c with ⟨h1, _⟩ | h1
  · exact h1
  · unfold Char.toLower
    have hn : ¬(c.toNat ≥ 65 ∧ c.toNat ≤ 90) := by
      intro hb
      have := (isUpper_iff c).2 hb
      simp [h] at this
    exact if_neg hn

/-! ## The lowercase mapping: auxiliary facts -/

/-- On an ASCII text the lowercase mapping is computed character by
character. -/
theorem lower_of_ascii {lower : String → String} (h : LowerCaseLaws lower) (s t : String)
    (hs : ∀ c ∈ s.data, c.toNat < 128) (ht : (⟨s.data.map Char.toLower⟩ : String) = t) :
    lower s = t :=
  (h.ascii s hs).trans ht

theorem lower_not_reserved {lower : String → String} (h : LowerCaseLaws lower) (s : String)
    (hs : ∀ d ∈ s.data, d ∉ reservedChars) : ∀ c ∈ (lower s).data, c ∉ reservedChars := by
  intro c hc
  by_cases hm : c ∈ s.data
  · exact hs c hm
  · exact (h.introduces s c hc hm).1

theorem lower_no_space {lower : String → String} (h : LowerCaseLaws lower) (s : String)
    (hs : ∀ d ∈ s.data, isWhiteSpace d = false) :
    ∀ c ∈ (lower s).data, isWhiteSpace c = false := by
  intro c hc
  by_cases hm : c ∈ s.data
  · exact hs c hm
  · exact (h.introduces s c hc hm).2

/-- No upper-case ASCII letter is left in a lowercased text. -/
theorem lower_no_upper {lower : String → String} (h : LowerCaseLaws lower) (s : String) :
    ∀ c ∈ (lower s).data, c.isUpper = false := by
  intro c hc
  cases hu : c.isUpper with
  | false => rfl
  | true =>
    have hr := (isUpper_iff c).1 hu
    have h1 : lower ⟨[c]⟩ = ⟨[c.toLower]⟩ :=
      h.ascii ⟨[c]⟩ (by intro d hd; simp at hd; subst hd; omega)
    have h2 := h.fixed s c hc
    rw [h1] at h2
    have h3 : c.toLower = c := by
      have := congrArg String.data h2
      simpa using this
    have h4 := isUpper_toLower c
    rw [h3, hu] at h4
    exact absurd h4 (by simp)

theorem replaceClass_mem (s : String) :
    ∀ c ∈ (replaceClass reservedChars '#' s).data,
      c ∉ reservedChars ∧ (c = '#' ∨ c ∈ s.data) := by
  intro c hc
  simp only [replaceClass, List.mem_map] at hc
  obtain ⟨a, ha, rfl⟩ := hc
  by_cases hr : a ∈ reservedChars
  · rw [if_pos hr]
    exact ⟨by decide, Or.inl rfl⟩
  · rw [if_neg hr]
    exact ⟨hr, Or.inr ha⟩

/-- A sanitized name contains none of the reserved characters, and no white
space when the name it comes from has none. -/
theorem sanitizeFileName_mem {lower : String → String} (h : LowerCaseLaws lower) (s : String) :
    (∀ c ∈ (sanitizeFileName lower s).data, c ∉ reservedChars) ∧
      ((∀ d ∈ s.data, isWhiteSpace d = false) →
        ∀ c ∈ (sanitizeFileName lower s).data, isWhiteSpace c = false) := by
  refine ⟨lower_not_reserved h _ fun d hd => (replaceClass_mem s d hd).1, ?_⟩
  intro hs
  apply lower_no_space h
  intro d hd
  rcases (replaceClass_mem s d hd).2 with h1 | h1
  · subst h1
    decide
  · exact hs d h1

theorem sampleLowerChar_of_ascii (c : Char) (h : c.toNat < 128) :
    sampleLowerChar c = [c.toLower] := by
  unfold sampleLowerChar
  cases hu : c.isUpper with
  | true => simp
  | false =>
    have h1 : c ≠ Char.ofNat 201 := by
      intro e
      have : c.toNat = 201 := by rw [e]; decide
      omega
    have h2 : c ≠ Char.ofNat 304 := by
      intro e
      have : c.toNat = 304 := by rw [e]; decide
      omega
    simp [h1, h2, toLower_of_not_upper c hu]

theorem sampleLowerChar_out (a c : Char) (h : c ∈ sampleLowerChar a) :
    sampleLowerChar c = [c] ∧ (c = a ∨ (c ∉ reservedChars ∧ isWhiteSpace c = false)) := by
  unfold sampleLowerChar at h
  cases hu : a.isUpper with
  | true =>
    simp only [hu, if_true, List.mem_singleton] at h
    subst h
    rcases toLower_cases a with ⟨_, hn⟩ | hl
    · exact absurd ((isUpper_iff a).1 hu) hn
    · have key : ∀ d ∈ "abcdefghijklmnopqrstuvwxyz".data,
          sampleLowerChar d = [d] ∧ d ∉ reservedChars ∧ isWhiteSpace d = false := by decide
      exact ⟨(key _ hl).1, Or.inr (key _ hl).2⟩
  | false =>
    simp only [hu, Bool.false_eq_true, if_false] at h
    by_cases h1 : a = Char.ofNat 201
    · simp only [h1, if_true, List.mem_singleton] at h
      subst h
      exact ⟨by decide, Or.inr (by decide)⟩
    · simp only [h1, if_false] at h
      by_cases h2 : a = Char.ofNat 304
      · simp only [h2, if_true, List.mem_cons, List.mem_singleton, List.mem_nil_iff,
          or_false] at h
        rcases h with h | h <;> subst h <;> exact ⟨by decide, Or.inr (by decide)⟩
      · simp only [h2, if_false, List.mem_singleton] at h
        subst h
        exact ⟨by simp [sampleLowerChar, hu, h1, h2], Or.inl rfl⟩

/-- The sample mapping has the properties assumed of the runtime's. -/
theorem sampleLower_laws : LowerCaseLaws sampleLower := by
  refine ⟨?_, ?_, ?_⟩
  · intro s hs
    obtain ⟨l⟩ := s
    simp only [sampleLower] at hs ⊢
    congr 1
    induction l with
    | nil => rfl
    | cons a as ih =>
      have ha := sampleLowerChar_of_ascii a (hs a (List.mem_cons_self _ _))
      simp only [List.flatMap_cons, List.map_cons, ha, List.singleton_append]
      rw [ih fun c hc => hs c (List.mem_cons_of_mem _ hc)]
  · intro s c hc
    simp only [sampleLower, List.mem_flatMap] at hc
    obtain ⟨a, _, hca⟩ := hc
    simp [sampleLower, (sampleLowerChar_out a c hca).1]
  · intro s c hc hn
    simp only [sampleLower, List.mem_flatMap] at hc
    obtain ⟨a, ha, hca⟩ := hc
    rcases (sampleLowerChar_out a c hca).2 with h | h
    · exact absurd (h ▸ ha) hn
    · exact h

/-! ## Pieces, timestamps and file names: auxiliary facts -/

theorem mem_data_join (sep : String) (xs : List String) (c : Char)
    (h : c ∈ (join sep xs).data) : c ∈ sep.data ∨ ∃ x ∈ xs, c ∈ x.data := by
  induction xs with
  | nil => simp [join] at h
  | cons x rest ih =>
    cases rest with
    | nil => exact Or.inr ⟨x, List.mem_cons_self _ _, by simpa [join] using h⟩
    | cons y rest =>
      simp only [join, String.data_append, List.mem_append] at h
      rcases h with (h | h) | h
      · exact Or.inr ⟨x, List.mem_cons_self _ _, h⟩
      · exact Or.inl h
      · rcases ih h with h1 | ⟨z, hz, hc⟩
        · exact Or.inl h1
        · exact Or.inr ⟨z, List.mem_cons_of_mem _ hz, hc⟩

theorem mem_go (cs : List Char) :
    ∀ (cur : List Char) (b : Bool) (piece : List Char) (c : Char),
      piece ∈ splitWhitespace.go cur b cs → c ∈ piece →
        c ∈ cur ∨ (c ∈ cs ∧ isWhiteSpace c = false) := by
  induction cs with
  | nil =>
    intro cur b piece c hp hc
    simp only [splitWhitespace.go, List.mem_singleton] at hp
    exact Or.inl (hp ▸ hc)
  | cons d ds ih =>
    intro cur b piece c hp hc
    simp only [splitWhitespace.go] at hp
    by_cases hd : isWhiteSpace d = true
    · simp only [hd, if_true] at hp
      have key : piece ∈ splitWhitespace.go [] true ds →
          c ∈ cur ∨ (c ∈ d :: ds ∧ isWhiteSpace c = false) := by
        intro h
        rcases ih [] true piece c h hc with h1 | ⟨h1, h2⟩
        · simp at h1
        · exact Or.inr ⟨List.mem_cons_of_mem _ h1, h2⟩
      cases b with
      | true => exact key (by simpa using hp)
      | false =>
        simp only [Bool.false_eq_true, if_false, List.mem_cons] at hp
        rcases hp with h | h
        · exact Or.inl (h ▸ hc)
        · exact key h
    · simp only [hd, if_false] at hp
      rcases ih (cur ++ [d]) false piece c hp hc with h1 | ⟨h1, h2⟩
      · rcases List.mem_append.1 h1 with h3 | h3
        · exact Or.inl h3
        · have : c = d := by simpa using h3
          subst this
          exact Or.inr ⟨List.mem_cons_self _ _, by simpa using hd⟩
      · exact Or.inr ⟨List.mem_cons_of_mem _ h1, h2⟩

/-- No piece of `split(/\s+/)` contains a white space character. -/
theorem splitWhitespace_no_space (s t : String) (ht : t ∈ splitWhitespace s) :
    ∀ c ∈ t.data, isWhiteSpace c = false := by
  intro c hc
  simp only [splitWhitespace, List.mem_map] at ht
  obtain ⟨piece, hp, rfl⟩ := ht
  rcases mem_go s.data [] false piece c hp hc with h | ⟨_, h⟩
  · simp at h
  · exact h

theorem digitChar_mem (n : Nat) : digitChar n ∈ "0123456789".data := by
  unfold digitChar
  have h : n % 10 < 10 := Nat.mod_lt _ (by decide)
  generalize n % 10 = k at h
  interval_cases k <;> decide

theorem padDigits_mem (width : Nat) :
    ∀ n, ∀ c ∈ padDigits width n, c ∈ "0123456789".data := by
  induction width with
  | zero => intro n c hc; simp [padDigits] at hc
  | succ w ih =>
    intro n c hc
    simp only [padDigits, List.mem_append, List.mem_singleton] at hc
    rcases hc with h | h
    · exact ih _ _ h
    · exact h ▸ digitChar_mem n

theorem isoChars_of_digit (c : Char) (h : c ∈ "0123456789".data) :
    c ∈ "0123456789+-T:.Z".data :=
  (by decide : ∀ d ∈ "0123456789".data, d ∈ "0123456789+-T:.Z".data) c h

theorem yearDigits_mem (y : Int) : ∀ c ∈ yearDigits y, c ∈ "0123456789+-T:.Z".data := by
  intro c hc
  unfold yearDigits at hc
  split at hc
  · exact isoChars_of_digit c (padDigits_mem _ _ c hc)
  · rcases List.mem_cons.1 hc with h | h
    · subst h
      split <;> decide
    · exact isoChars_of_digit c (padDigits_mem _ _ c h)

/-- An ISO timestamp consists of digits, signs and the letters `T` and `Z`. -/
theorem toISOString_mem (d : Date) :
    ∀ c ∈ (toISOString d).data, c ∈ "0123456789+-T:.Z".data := by
  intro c hc
  simp only [toISOString, List.mem_append, List.mem_singleton, or_assoc] at hc
  have pad : ∀ w n, c ∈ padDigits w n → c ∈ "0123456789+-T:.Z".data :=
    fun w n h => isoChars_of_digit c (padDigits_mem w n c h)
  rcases hc with h | h | h | h | h | h | h | h | h | h | h | h | h | h
  · exact yearDigits_mem _ c h
  all_goals first
    | exact pad _ _ h
    | (subst h; decide)

theorem timestampOf_plain (d : Date) : ∀ c ∈ (timestampOf d).data, isPlain c = true := by
  intro c hc
  simp only [timestampOf, replaceClass, List.mem_map] at hc
  obtain ⟨a, ha, rfl⟩ := hc
  have h := toISOString_mem d a ha
  revert h
  generalize a = x
  exact (by decide : ∀ x ∈ "0123456789+-T:.Z".data,
    isPlain (if x ∈ timeChars then '-' else x) = true) x

theorem wordsOf_plain {lower : String → String} (h : LowerCaseLaws lower) (prompt : String) :
    ∀ c ∈ (wordsOf lower prompt).data, isPlain c = true := by
  intro c hc
  rcases mem_data_join _ _ c hc with h0 | ⟨x, hx, hcx⟩
  · exact (by decide : ∀ d ∈ "-".data, isPlain d = true) c h0
  · simp only [List.mem_map] at hx
    obtain ⟨y, ⟨t, ht, rfl⟩, rfl⟩ := hx
    have hws := splitWhitespace_no_space prompt t (List.mem_of_mem_take ht)
    have hsan := sanitizeFileName_mem h t
    have hr := lower_not_reserved h _ hsan.1 c hcx
    have hs := lower_no_space h _ (hsan.2 hws) c hcx
    have h1 : c ≠ '/' := fun e => hr (e ▸ by decide)
    have h2 : c ≠ '\\' := fun e => hr (e ▸ by decide)
    simp [isPlain, h1, h2, hs]

theorem tempFileName_plain {lower : String → String} (h : LowerCaseLaws lower) (date : Date)
    (prompt : String) : ∀ c ∈ (tempFileName lower date prompt).data, isPlain c = true := by
  intro c hc
  simp only [tempFileName, String.data_append, List.mem_append] at hc
  rcases hc with (((h0 | h0) | h0) | h0) | h0
  · exact (by decide : ∀ d ∈ "prompt_".data, isPlain d = true) c h0
  · exact timestampOf_plain date c h0
  · exact (by decide : ∀ d ∈ "_".data, isPlain d = true) c h0
  · exact wordsOf_plain h prompt c h0
  · exact (by decide : ∀ d ∈ ".txt".data, isPlain d = true) c h0

/-- The directory of `path.join(dir, name)` is `dir` when `name` is a single
segment. -/
theorem dirname_pathJoin (dir name : String) (h : ∀ c ∈ name.data, c ≠ '/') :
    dirname (pathJoin dir name) = dir := by
  apply String.ext
  simp only [dirname, pathJoin, String.data_append, List.reverse_append]
  have h1 : ∀ c ∈ name.data.reverse, (fun c => c != '/') c = true := by
    intro c hc
    simpa using h c (List.mem_reverse.1 hc)
  rw [List.dropWhile_append_of_pos h1]
  simp [List.dropWhile]

/-! ## The pieces of `split(/\s+/)` -/

theorem splitOnP_cons_space (c : Char) (cs : List Char) (h : isWhiteSpace c = true) :
    (c :: cs).splitOnP isWhiteSpace = [] :: cs.splitOnP isWhiteSpace := by
  simp [h]

theorem splitOnP_cons_plain (c : Char) (cs x : List Char) (xs : List (List Char))
    (h : isWhiteSpace c = false) (hs : cs.splitOnP isWhiteSpace = x :: xs) :
    (c :: cs).splitOnP isWhiteSpace = (c :: x) :: xs := by
  simp [h, hs, List.modifyHead]

theorem keep_cons (x : List Char) (xs : List (List Char)) :
    ((x :: xs).dropLast.filter fun t => !t.isEmpty) ++ (x :: xs).getLast?.toList =
      (if x = [] ∧ xs ≠ [] then [] else [x]) ++
        ((xs.dropLast.filter fun t => !t.isEmpty) ++ xs.getLast?.toList) := by
  cases xs with
  | nil => simp
  | cons y ys =>
    cases x with
    | nil => simp [List.filter]
    | cons a as => simp [List.filter]

theorem go_eq (l : List Char) :
    ∀ (cur : List Char) (b : Bool) (x : List Char) (xs : List (List Char)),
      l.splitOnP isWhiteSpace = x :: xs → (b = true → cur = []) →
        splitWhitespace.go cur b l =
          (if b = true ∧ x = [] ∧ xs ≠ [] then [] else [cur ++ x]) ++
            ((xs.dropLast.filter fun t => !t.isEmpty) ++ xs.getLast?.toList) := by
  induction l with
  | nil =>
    intro cur b x xs hs hb
    simp only [List.splitOnP_nil, List.cons.injEq] at hs
    obtain ⟨rfl, rfl⟩ := hs
    simp [splitWhitespace.go]
  | cons c cs ih =>
    intro cur b x xs hs hb
    obtain ⟨y, ys, hcs⟩ : ∃ y ys, cs.splitOnP isWhiteSpace = y :: ys := by
      cases h : cs.splitOnP isWhiteSpace with
      | nil => exact absurd h (List.splitOnP_ne_nil _ _)
      | cons y ys => exact ⟨y, ys, rfl⟩
    by_cases hc : isWhiteSpace c = true
    · rw [splitOnP_cons_space c cs hc, hcs] at hs
      simp only [List.cons.injEq] at hs
      obtain ⟨rfl, rfl⟩ := hs
      have h1 := ih [] true y ys hcs (fun _ => rfl)
      rw [keep_cons]
      simp only [splitWhitespace.go, hc, if_true, h1, List.nil_append]
      cases b with
      | true => simp
      | false => simp
    · have hc0 : isWhiteSpace c = false := by simpa using hc
      rw [splitOnP_cons_plain c cs y ys hc0 hcs] at hs
      simp only [List.cons.injEq] at hs
      obtain ⟨rfl, rfl⟩ := hs
      have h1 := ih (cur ++ [c]) false y ys hcs (by simp)
      simp only [splitWhitespace.go, hc0, h1]
      simp


theorem splitOnP_exists (l : List Char) :
    ∃ x xs, l.splitOnP isWhiteSpace = x :: xs := by
  cases h : l.splitOnP isWhiteSpace with
  | nil => exact absurd h (List.splitOnP_ne_nil _ _)
  | cons y ys => exact ⟨y, ys, rfl⟩

theorem splitOnP_head (c : Char) (cs x : List Char) (xs : List (List Char))
    (hs : (c :: cs).splitOnP isWhiteSpace = x :: xs) :
    (x = [] ↔ isWhiteSpace c = true) ∧ (x = [] → xs ≠ []) := by
  obtain ⟨y, ys, hcs⟩ := splitOnP_exists cs
  by_cases hc : isWhiteSpace c = true
  · rw [splitOnP_cons_space c cs hc, hcs] at hs
    simp only [List.cons.injEq] at hs
    obtain ⟨rfl, rfl⟩ := hs
    simp [hc]
  · have hc0 : isWhiteSpace c = false := by simpa using hc
    rw [splitOnP_cons_plain c cs y ys hc0 hcs] at hs
    simp only [List.cons.injEq] at hs
    obtain ⟨rfl, rfl⟩ := hs
    simp [hc0]

theorem splitOnP_getLast (l : List Char) :
    (l.splitOnP isWhiteSpace).getLast? = some [] ↔
      (l = [] ∨ l.getLast?.any isWhiteSpace = true) := by
  induction l with
  | nil => simp
  | cons c cs ih =>
    obtain ⟨y, ys, hcs⟩ := splitOnP_exists cs
    by_cases hc : isWhiteSpace c = true
    · rw [splitOnP_cons_space c cs hc, hcs, List.getLast?_cons_cons, ← hcs, ih]
      cases cs with
      | nil => simp [hc]
      | cons d ds => simp [List.getLast?_cons_cons]
    · have hc0 : isWhiteSpace c = false := by simpa using hc
      rw [splitOnP_cons_plain c cs y ys hc0 hcs]
      cases cs with
      | nil =>
        simp only [List.splitOnP_nil, List.cons.injEq] at hcs
        obtain ⟨rfl, rfl⟩ := hcs
        simp [hc0]
      | cons d ds =>
        cases ys with
        | nil =>
          have hy : y ≠ [] := by
            intro hy
            exact (splitOnP_head d ds y [] hcs).2 hy rfl
          have h2 : ¬((d :: ds).getLast?.any isWhiteSpace = true) := by
            intro h
            have := ih.2 (Or.inr h)
            rw [hcs] at this
            simp at this
            exact hy this
          simp only [List.getLast?_cons_cons] at h2 ⊢
          simp [h2]
        | cons z zs =>
          rw [List.getLast?_cons_cons]
          have h3 : (y :: z :: zs).getLast? = (z :: zs).getLast? := List.getLast?_cons_cons
          rw [← h3, ← hcs, ih]
          simp [List.getLast?_cons_cons]

/-- The pieces of `split(/\s+/)` are the tokens of the text, with an empty
piece at an end where the text has white space. -/
theorem splitWhitespace_eq_pieces (s : String) : splitWhitespace s = pieces s := by
  obtain ⟨l⟩ := s
  cases l with
  | nil => decide
  | cons c cs =>
    obtain ⟨x, xs, hs⟩ := splitOnP_exists (c :: cs)
    have hne : (String.mk (c :: cs) = "") = False := by
      simp only [eq_iff_iff, iff_false]
      intro h
      have := congrArg String.data h
      simp at this
    have hh := splitOnP_head c cs x xs hs
    have hl := splitOnP_getLast (c :: cs)
    simp only [splitWhitespace, pieces, hne, if_false, tokens, startsWithSpace, endsWithSpace,
      go_eq (c :: cs) [] false x xs hs (by simp), hs] at hl ⊢
    simp only [List.head?_cons, Option.any_some, reduceCtorEq, false_or, Bool.false_eq_true,
      false_and, if_false, List.nil_append] at hl ⊢
    rcases List.eq_nil_or_concat xs with rfl | ⟨L, b, rfl⟩
    · have hx : x ≠ [] := fun h => hh.2 h rfl
      have hc : ¬(isWhiteSpace c = true) := fun h => hx (hh.1.2 h)
      have hb : ¬(Option.any isWhiteSpace (c :: cs).getLast? = true) := by
        intro h
        have := hl.2 h
        simp at this
        exact hx this
      cases x with
      | nil => exact absurd rfl hx
      | cons a as => simp [hc, hb, List.filter]
    · simp only [List.concat_eq_append] at hl hh hs ⊢
      have h1 : (x :: (L ++ [b])).getLast? = some b := by
        rw [← List.cons_append, List.getLast?_append]
        simp
      rw [h1] at hl
      simp only [Option.some.injEq] at hl
      rw [List.dropLast_concat, List.getLast?_append]
      simp only [List.getLast?_singleton, Option.or_some, Option.toList_some, List.filter_cons,
        List.filter_append, List.filter_nil]
      by_cases hx : x = [] <;> by_cases hb : b = []
      · have hc := hh.1.1 hx
        have hB := hl.1 hb
        subst hx hb
        simp [hc, hB]
      · have hc := hh.1.1 hx
        have hB : ¬(Option.any isWhiteSpace (c :: cs).getLast? = true) := fun h => hb (hl.2 h)
        subst hx
        cases b with
        | nil => exact absurd rfl hb
        | cons b0 bs => simp [hc, hB]
      · have hc : ¬(isWhiteSpace c = true) := fun h => hx (hh.1.2 h)
        have hB := hl.1 hb
        subst hb
        cases x with
        | nil => exact absurd rfl hx
        | cons a as => simp [hc, hB]
      · have hc : ¬(isWhiteSpace c = true) := fun h => hx (hh.1.2 h)
        have hB : ¬(Option.any isWhiteSpace (c :: cs).getLast? = true) := fun h => hb (hl.2 h)
        cases x with
        | nil => exact absurd rfl hx
        | cons a as =>
          cases b with
          | nil => exact absurd rfl hb
          | cons b0 bs => simp [hc, hB]

/-- The path that `getTempFilePath` returns, by the pieces of the prompt. -/
theorem getTempFilePath_pieces (lower : String → String) (home : String) (date : Date)
    (prompt : String) :
    getTempFilePath lower home date prompt = archivalPath lower home date (pieces prompt) := by
  have h1 : timestampOf date = dashedTimestamp date := by
    apply String.ext
    simp only [timestampOf, dashedTimestamp, replaceClass]
    apply List.map_congr_left
    intro c _
    simp [timeChars]
  have h2 : wordsOf lower prompt =
      join "-" (((pieces prompt).take 5).map fun t => lower (sanitizeFileName lower t)) := by
    simp only [wordsOf, splitWhitespace_eq_pieces, List.map_map]
    rfl
  simp only [getTempFilePath, archivalPath, tempFileName, pathJoin, h1, h2]
  apply String.ext
  simp only [String.data_append, List.append_assoc]
  rfl

/-- The path that `getTempFilePath` returns, by the value of `words`. -/
theorem getTempFilePath_of_words (lower : String → String) (home : String) (date : Date)
    (prompt w : String) (hw : wordsOf lower prompt = w) :
    getTempFilePath lower home date prompt =
      dataDir home ++ "/prompt_" ++ dashedTimestamp date ++ "_" ++ w ++ ".txt" := by
  have h1 : timestampOf date = dashedTimestamp date := by
    apply String.ext
    simp only [timestampOf, dashedTimestamp, replaceClass]
    apply List.map_congr_left
    intro c _
    simp [timeChars]
  simp only [getTempFilePath, tempFileName, pathJoin, h1, hw]
  apply String.ext
  simp only [String.data_append, List.append_assoc]
  rfl

/-- A word of lower-case ASCII letters is left as it is by sanitizing and
lowercasing. -/
theorem lower_sanitize_of_ascii {lower : String → String} (h : LowerCaseLaws lower)
    (t : String) (h1 : replaceClass reservedChars '#' t = t)
    (h2 : ∀ c ∈ t.data, c.toNat < 128) (h3 : (⟨t.data.map Char.toLower⟩ : String) = t) :
    lower (sanitizeFileName lower t) = t := by
  have h4 : lower t = t := lower_of_ascii h t t h2 h3
  rw [sanitizeFileName, h1, h4, h4]

/-! ## File names: the properties -/

/-- C9: for every string `s`, `sanitizeFileName s` is `s` with each of the ten
characters `/ \ ? % * : | " < >` replaced by `#` and then lowercased by the
runtime; the result contains none of the ten characters and no upper-case
letter (no character that lowercasing changes, in particular none of `A`–`Z`);
the word `a/b?c` sanitizes to `a#b#c`, also when written in capitals.  The
runtime's `toLowerCase` is any mapping with the properties `LowerCaseLaws`. -/
theorem sanitizeFileName_spec (lower : String → String) (h : LowerCaseLaws lower) (s : String) :
    sanitizeFileName lower s =
        lower ⟨s.data.map fun c =>
          if c ∈ ['/', '\\', '?', '%', '*', ':', '|', '"', '<', '>'] then '#' else c⟩ ∧
      (∀ c ∈ (sanitizeFileName lower s).data,
        c ∉ ['/', '\\', '?', '%', '*', ':', '|', '"', '<', '>'] ∧
          lower ⟨[c]⟩ = ⟨[c]⟩ ∧ c.isUpper = false) ∧
      sanitizeFileName lower "a/b?c" = "a#b#c" ∧ sanitizeFileName lower "A/b?C" = "a#b#c" := by
  refine ⟨rfl, ?_, ?_, ?_⟩
  · intro c hc
    exact ⟨(sanitizeFileName_mem h s).1 c hc, h.fixed _ c hc, lower_no_upper h _ c hc⟩
  · exact lower_of_ascii h _ _ (by decide) (by decide)
  · exact lower_of_ascii h _ _ (by decide) (by decide)

/-- C9 at the sample mapping and a name with capitals outside ASCII:
`ÉCOLE/İx` sanitizes to `école#i̇x`. -/
theorem sanitizeFileName_spec_witness :
    LowerCaseLaws sampleLower ∧
      sanitizeFileName sampleLower "ÉCOLE/İx" = "école#i̇x" ∧
      (∀ c ∈ (sanitizeFileName sampleLower "ÉCOLE/İx").data,
        c ∉ ['/', '\\', '?', '%', '*', ':', '|', '"', '<', '>'] ∧
          sampleLower ⟨[c]⟩ = ⟨[c]⟩ ∧ c.isUpper = false) ∧
      sanitizeFileName sampleLower "a/b?c" = "a#b#c" :=
  ⟨sampleLower_laws, by decide,
    (sanitizeFileName_spec sampleLower sampleLower_laws "ÉCOLE/İx").2.1,
    (sanitizeFileName_spec sampleLower sampleLower_laws "ÉCOLE/İx").2.2.1⟩

/-- C10: for every prompt text, the file name that `getTempFilePath` appends
to the data directory contains no path separator (`/` or `\`) and no white
space character, so the path it returns lies directly in the data directory.
The runtime's `toLowerCase` is any mapping with the properties
`LowerCaseLaws`. -/
theorem tempFileName_no_separator (lower : String → String) (h : LowerCaseLaws lower)
    (home : String) (date : Date) (prompt : String) :
    (∀ c ∈ (tempFileName lower date prompt).data,
        c ≠ '/' ∧ c ≠ '\\' ∧ isWhiteSpace c = false) ∧
      getTempFilePath lower home date prompt =
        dataDir home ++ "/" ++ tempFileName lower date prompt ∧
      dirname (getTempFilePath lower home date prompt) = dataDir home := by
  have key : ∀ c ∈ (tempFileName lower date prompt).data,
      c ≠ '/' ∧ c ≠ '\\' ∧ isWhiteSpace c = false := by
    intro c hc
    have h0 := tempFileName_plain h date prompt c hc
    simpa [isPlain, and_assoc] using h0
  exact ⟨key, rfl, dirname_pathJoin _ _ fun c hc => (key c hc).1⟩

/-- C10 at the sample mapping and a prompt with separators, a tab and
capitals outside ASCII. -/
theorem tempFileName_no_separator_witness :
    LowerCaseLaws sampleLower ∧
      tempFileName sampleLower ⟨2024, 1, 2, 3, 4, 5, 6⟩ "../ÉCOLE\t\\İx /etc" =
        "prompt_2024-01-02T03-04-05-006Z_..#école-#i̇x-#etc.txt" ∧
      (∀ c ∈ (tempFileName sampleLower ⟨2024, 1, 2, 3, 4, 5, 6⟩ "../ÉCOLE\t\\İx /etc").data,
        c ≠ '/' ∧ c ≠ '\\' ∧ isWhiteSpace c = false) ∧
      dirname (getTempFilePath sampleLower "/home/u" ⟨2024, 1, 2, 3, 4, 5, 6⟩
        "../ÉCOLE\t\\İx /etc") = dataDir "/home/u" :=
  ⟨sampleLower_laws, by decide,
    (tempFileName_no_separator sampleLower sampleLower_laws "/home/u"
      ⟨2024, 1, 2, 3, 4, 5, 6⟩ "../ÉCOLE\t\\İx /etc").1,
    (tempFileName_no_separator sampleLower sampleLower_laws "/home/u"
      ⟨2024, 1, 2, 3, 4, 5, 6⟩ "../ÉCOLE\t\\İx /etc").2.2⟩

/-- C8 fails on the code: `split(/\s+/)` yields an empty first piece for a
prompt that begins with white space and an empty last piece for one that ends
with it, and `getTempFilePath` counts it among the five words.  For the prompt
` a b c d e f` the words are `-a-b-c-d`, where the first five tokens give
`a-b-c-d-e`; for `hi` followed by a line feed they are `hi-`, where the tokens
give `hi`. -/
theorem getTempFilePath_empty_piece (lower : String → String) (h : LowerCaseLaws lower)
    (home : String) (date : Date) :
    (splitWhitespace " a b c d e f" = ["", "a", "b", "c", "d", "e", "f"] ∧
        tokens " a b c d e f" = ["a", "b", "c", "d", "e", "f"] ∧
        getTempFilePath lower home date " a b c d e f" =
          dataDir home ++ "/prompt_" ++ dashedTimestamp date ++ "_" ++ "-a-b-c-d" ++ ".txt" ∧
        archivalPath lower home date (tokens " a b c d e f") =
          dataDir home ++ "/prompt_" ++ dashedTimestamp date ++ "_" ++ "a-b-c-d-e" ++ ".txt") ∧
      (splitWhitespace "hi\n" = ["hi", ""] ∧ tokens "hi\n" = ["hi"] ∧
        getTempFilePath lower home date "hi\n" =
          dataDir home ++ "/prompt_" ++ dashedTimestamp date ++ "_" ++ "hi-" ++ ".txt" ∧
        archivalPath lower home date (tokens "hi\n") =
          dataDir home ++ "/prompt_" ++ dashedTimestamp date ++ "_" ++ "hi" ++ ".txt") := by
  have word : ∀ t ∈ ["", "a", "b", "c", "d", "e", "hi"],
      lower (sanitizeFileName lower t) = t := by
    intro t ht
    have key : ∀ t ∈ ["", "a", "b", "c", "d", "e", "hi"],
        replaceClass reservedChars '#' t = t ∧ (∀ c ∈ t.data, c.toNat < 128) ∧
          (⟨t.data.map Char.toLower⟩ : String) = t := by decide
    exact lower_sanitize_of_ascii h t (key t ht).1 (key t ht).2.1 (key t ht).2.2
  have s1 : splitWhitespace " a b c d e f" = ["", "a", "b", "c", "d", "e", "f"] := by decide
  have s2 : splitWhitespace "hi\n" = ["hi", ""] := by decide
  have t1 : tokens " a b c d e f" = ["a", "b", "c", "d", "e", "f"] := by decide
  have t2 : tokens "hi\n" = ["hi"] := by decide
  have w1 : wordsOf lower " a b c d e f" = "-a-b-c-d" := by
    rw [wordsOf, s1]
    simp only [List.take, List.map]
    rw [word "" (by decide), word "a" (by decide), word "b" (by decide), word "c" (by decide),
      word "d" (by decide)]
    decide
  have w2 : wordsOf lower "hi\n" = "hi-" := by
    rw [wordsOf, s2]
    simp only [List.take, List.map]
    rw [word "hi" (by decide), word "" (by decide)]
    decide
  refine ⟨⟨s1, t1, getTempFilePath_of_words lower home date _ _ w1, ?_⟩,
    ⟨s2, t2, getTempFilePath_of_words lower home date _ _ w2, ?_⟩⟩
  · rw [archivalPath, t1]
    simp only [List.take, List.map]
    rw [word "a" (by decide), word "b" (by decide), word "c" (by decide), word "d" (by decide),
      word "e" (by decide)]
    rfl
  · rw [archivalPath, t2]
    simp only [List.take, List.map]
    rw [word "hi" (by decide)]
    rfl

/-- C8 at the sample mapping: the name built for ` a b c d e f` and the name
that its first five tokens give. -/
theorem getTempFilePath_empty_piece_witness :
    LowerCaseLaws sampleLower ∧
      getTempFilePath sampleLower "/home/u" ⟨2024, 1, 2, 3, 4, 5, 6⟩ " a b c d e f" =
        "/home/u/.h-data/prompt_2024-01-02T03-04-05-006Z_-a-b-c-d.txt" ∧
      archivalPath sampleLower "/home/u" ⟨2024, 1, 2, 3, 4, 5, 6⟩ (tokens " a b c d e f") =
        "/home/u/.h-data/prompt_2024-01-02T03-04-05-006Z_a-b-c-d-e.txt" :=
  ⟨sampleLower_laws,
    (getTempFilePath_empty_piece sampleLower sampleLower_laws "/home/u"
      ⟨2024, 1, 2, 3, 4, 5, 6⟩).1.2.2.1,
    (getTempFilePath_empty_piece sampleLower sampleLower_laws "/home/u"
      ⟨2024, 1, 2, 3, 4, 5, 6⟩).1.2.2.2⟩

/-! ## The file system: auxiliary facts -/

theorem pathJoin_ne (dir name : String) : pathJoin dir name ≠ dir := by
  intro h
  have h0 := congrArg String.length h
  simp only [pathJoin, String.length_append] at h0
  have h1 : "/".length = 1 := rfl
  omega

theorem latestFile_ne_dataDir (home : String) : latestFile home ≠ dataDir home :=
  pathJoin_ne _ _

theorem dataDir_ne_home (home : String) : dataDir home ≠ home :=
  pathJoin_ne _ _

theorem latestFile_ne_home (home : String) : latestFile home ≠ home := by
  intro h
  have h0 := congrArg String.length h
  simp only [latestFile, dataDir, pathJoin, String.length_append] at h0
  have h1 : "/".length = 1 := rfl
  omega

theorem dirname_dataDir (home : String) : dirname (dataDir home) = home :=
  dirname_pathJoin _ _ (by decide)

theorem dirname_latestFile (home : String) : dirname (latestFile home) = dataDir home :=
  dirname_pathJoin _ _ (by decide)

theorem lookup_filter_ne (fs : FileSystem) (p q : String) (h : q ≠ p) :
    (fs.filter fun e => e.1 != p).lookup q = fs.lookup q := by
  induction fs with
  | nil => rfl
  | cons e rest ih =>
    obtain ⟨k, v⟩ := e
    by_cases hk : k = p
    · subst hk
      have h1 : (q == k) = false := by simpa using h
      simp [List.filter, List.lookup, h1, ih]
    · have h2 : (k != p) = true := by simpa using hk
      simp only [List.filter, h2, List.lookup, ih]

theorem lookup_put_self (fs : FileSystem) (p : String) (e : Entry) :
    (fs.put p e).lookup p = some e := by
  simp [FileSystem.put, List.lookup]

theorem lookup_put_ne (fs : FileSystem) (p q : String) (e : Entry) (h : q ≠ p) :
    (fs.put p e).lookup q = fs.lookup q := by
  have h1 : (q == p) = false := by simpa using h
  simp only [FileSystem.put, List.lookup, h1]
  exact lookup_filter_ne fs p q h

/-- When something already exists at the path of the data directory, `init`
returns at once and changes nothing. -/
theorem init_of_exists (home : String) (w : World) (e : Entry)
    (h : w.fs.lookup (dataDir home) = some e) :
    init home w = (Except.ok (), w.record (Call.mkdir (dataDir home))) := by
  simp [init, fsMkdir, mkdirError, h, systemError]

/-- When `mkdir` fails for another reason than `EEXIST`, `init` throws that
error and changes nothing. -/
theorem init_of_mkdir_fails (home : String) (w : World) (code : String)
    (h : mkdirError (dataDir home) w.fs = some code) (hc : code ≠ "EEXIST") :
    init home w = (Except.error (systemError code "mkdir" (dataDir home)),
      w.record (Call.mkdir (dataDir home))) := by
  simp [init, fsMkdir, h, systemError, hc]

/-- When `mkdir` succeeds, `init` goes on to the cache file: an existing file
is left alone, an absent one is created empty and the `ENOENT` of the read is
thrown all the same. -/
theorem init_of_mkdir_ok (home : String) (w : World)
    (h : mkdirError (dataDir home) w.fs = none) :
    init home w =
      match w.fs.lookup (latestFile home) with
      | some (Entry.file _) =>
        (Except.ok (),
          ⟨w.fs.put (dataDir home) Entry.dir,
            w.calls ++ [Call.mkdir (dataDir home), Call.readFile (latestFile home)],
            w.stdout, w.stderr⟩)
      | some Entry.dir =>
        (Except.error (systemError "EISDIR" "read" (latestFile home)),
          ⟨w.fs.put (dataDir home) Entry.dir,
            w.calls ++ [Call.mkdir (dataDir home), Call.readFile (latestFile home)],
            w.stdout, w.stderr⟩)
      | none =>
        (Except.error (systemError "ENOENT" "open" (latestFile home)),
          ⟨(w.fs.put (dataDir home) Entry.dir).put (latestFile home) (Entry.file ""),
            w.calls ++ [Call.mkdir (dataDir home), Call.readFile (latestFile home),
              Call.writeFile (latestFile home) ""],
            w.stdout, w.stderr⟩) := by
  have hl : ∀ fs : FileSystem, (fs.put (dataDir home) Entry.dir).lookup (latestFile home) =
      fs.lookup (latestFile home) := fun fs => lookup_put_ne _ _ _ _ (latestFile_ne_dataDir home)
  have hd : ∀ fs : FileSystem, (fs.put (dataDir home) Entry.dir).lookup
      (dirname (latestFile home)) = some Entry.dir := by
    intro fs
    rw [dirname_latestFile]
    exact lookup_put_self _ _ _
  cases hlk : w.fs.lookup (latestFile home) with
  | none =>
    simp [init, fsMkdir, h, fsReadFile, fsWriteFile, World.record, hl, hd, hlk, systemError,
      parentError]
  | some e =>
    cases e with
    | file c => simp [init, fsMkdir, h, fsReadFile, World.record, hl, hlk]
    | dir => simp [init, fsMkdir, h, fsReadFile, World.record, hl, hlk, systemError]

theorem lookup_of_mkdirError_exists (path : String) (fs : FileSystem)
    (h : mkdirError path fs = some "EEXIST") : ∃ e, fs.lookup path = some e := by
  unfold mkdirError at h
  cases hl : fs.lookup path with
  | some e => exact ⟨e, rfl⟩
  | none =>
    rw [hl] at h
    simp only [parentError] at h
    split at h <;> simp at h

theorem mkdirError_of_fresh (home : String) :
    mkdirError (dataDir home) [(home, Entry.dir)] = none := by
  have h1 : (dataDir home == home) = false := by simpa using dataDir_ne_home home
  simp [mkdirError, List.lookup, h1, dirname_dataDir, parentError]

/-- After a call of `init` in which `mkdir` did not fail for another reason
than `EEXIST`, the path of the data directory exists. -/
theorem init_dataDir_exists (home : String) (w : World)
    (h : mkdirError (dataDir home) w.fs = none ∨
      mkdirError (dataDir home) w.fs = some "EEXIST") :
    ∃ e, (init home w).2.fs.lookup (dataDir home) = some e := by
  rcases h with h | h
  · rw [init_of_mkdir_ok home w h]
    have hne : dataDir home ≠ latestFile home := fun e => latestFile_ne_dataDir home e.symm
    split
    · exact ⟨Entry.dir, lookup_put_self _ _ _⟩
    · exact ⟨Entry.dir, lookup_put_self _ _ _⟩
    · exact ⟨Entry.dir, by
        show ((w.fs.put (dataDir home) Entry.dir).put (latestFile home) (Entry.file "")).lookup
          (dataDir home) = some Entry.dir
        rw [lookup_put_ne _ _ _ _ hne, lookup_put_self]⟩
  · obtain ⟨e, he⟩ := lookup_of_mkdirError_exists _ _ h
    rw [init_of_exists home w e he]
    exact ⟨e, he⟩

/-- Calls of `writeFile` that `init` adds to the recorded calls when the cache
file exists: none. -/
theorem init_keeps_content (home : String) (w : World) (content : String)
    (h : w.fs.lookup (latestFile home) = some (Entry.file content)) :
    (init home w).2.fs.lookup (latestFile home) = some (Entry.file content) ∧
      ∀ p d, Call.writeFile p d ∈ (init home w).2.calls → Call.writeFile p d ∈ w.calls := by
  cases hm : mkdirError (dataDir home) w.fs with
  | none =>
    rw [init_of_mkdir_ok home w hm, h]
    refine ⟨?_, ?_⟩
    · show (w.fs.put (dataDir home) Entry.dir).lookup (latestFile home) = _
      rw [lookup_put_ne _ _ _ _ (latestFile_ne_dataDir home), h]
    · intro p d hp
      simpa using hp
  | some code =>
    by_cases hc : code = "EEXIST"
    · subst hc
      obtain ⟨e, he⟩ := lookup_of_mkdirError_exists _ _ hm
      rw [init_of_exists home w e he]
      exact ⟨h, fun p d hp => by simpa [World.record] using hp⟩
    · rw [init_of_mkdir_fails home w code hm hc]
      exact ⟨h, fun p d hp => by simpa [World.record] using hp⟩

theorem filter_of_lookup_none (fs : FileSystem) (p : String) (h : fs.lookup p = none) :
    (fs.filter fun q => q.1 != p) = fs := by
  induction fs with
  | nil => rfl
  | cons e rest ih =>
    obtain ⟨k, v⟩ := e
    by_cases hk : p = k
    · subst hk
      simp [List.lookup] at h
    · have h1 : (p == k) = false := by simpa using hk
      have h2 : (k != p) = true := by simpa using fun e => hk e.symm
      simp only [List.lookup, h1] at h
      simp only [List.filter, h2, ih h]

/-- On a fresh home directory (the home directory exists, the data directory
and the cache file do not) `init` creates the data directory and the cache
file, and then throws the error of the read. -/
theorem init_of_fresh (home : String) (w : World)
    (hh : w.fs.lookup home = some Entry.dir) (hd : w.fs.lookup (dataDir home) = none)
    (hl : w.fs.lookup (latestFile home) = none) :
    init home w =
      (Except.error (systemError "ENOENT" "open" (latestFile home)),
        ⟨(latestFile home, Entry.file "") :: (dataDir home, Entry.dir) :: w.fs,
          w.calls ++ [Call.mkdir (dataDir home), Call.readFile (latestFile home),
            Call.writeFile (latestFile home) ""], w.stdout, w.stderr⟩) := by
  have hm : mkdirError (dataDir home) w.fs = none := by
    simp [mkdirError, hd, dirname_dataDir, hh, parentError]
  have h4 : (dataDir home != latestFile home) = true := by
    simpa using fun e => latestFile_ne_dataDir home e.symm
  rw [init_of_mkdir_ok home w hm, hl]
  simp [FileSystem.put, List.filter, h4, filter_of_lookup_none _ _ hd,
    filter_of_lookup_none _ _ hl]

/-! ## Initialisation: the properties -/

/-- C5 fails on the code: on a fresh home directory (data directory and cache
file absent), `mkdir` and `writeFile` succeed and both are created, yet
`init` throws the `ENOENT` error of the read that preceded the write. -/
theorem init_fresh_home_throws (home : String) :
    mkdirError (dataDir home) [(home, Entry.dir)] = none ∧
      init home ⟨[(home, Entry.dir)], [], [], []⟩ =
        (Except.error (systemError "ENOENT" "open" (latestFile home)),
          ⟨[(latestFile home, Entry.file ""), (dataDir home, Entry.dir), (home, Entry.dir)],
            [Call.mkdir (dataDir home), Call.readFile (latestFile home),
              Call.writeFile (latestFile home) ""], [], []⟩) ∧
      (init "/home/u" ⟨[("/home/u", Entry.dir)], [], [], []⟩).1 =
        Except.error ⟨"Error",
          "ENOENT: no such file or directory, open '/home/u/.h-data/latest.json'",
          some "ENOENT", none⟩ := by
  have h1 : (dataDir home == home) = false := by simpa using dataDir_ne_home home
  have h2 : (latestFile home == home) = false := by simpa using latestFile_ne_home home
  exact ⟨mkdirError_of_fresh home,
    init_of_fresh home _ (by simp [List.lookup]) (by simp [List.lookup, h1])
      (by simp [List.lookup, h2]), rfl⟩

/-- C4 fails on the code: when the data directory exists without
`latest.json`, `init` returns after `mkdir` reported `EEXIST` and the cache
file is still absent.  In the other two states the claim holds: from a fresh
home both are created (the file empty), and when both exist they are kept. -/
theorem init_skips_cache_file (home : String) (content : String) :
    (init home ⟨[(dataDir home, Entry.dir), (home, Entry.dir)], [], [], []⟩ =
        (Except.ok (),
          ⟨[(dataDir home, Entry.dir), (home, Entry.dir)], [Call.mkdir (dataDir home)], [], []⟩) ∧
      List.lookup (latestFile home) [(dataDir home, Entry.dir), (home, Entry.dir)] = none) ∧
    (init home ⟨[(home, Entry.dir)], [], [], []⟩).2.fs =
      [(latestFile home, Entry.file ""), (dataDir home, Entry.dir), (home, Entry.dir)] ∧
    (init home ⟨[(latestFile home, Entry.file content), (dataDir home, Entry.dir),
        (home, Entry.dir)], [], [], []⟩).2.fs =
      [(latestFile home, Entry.file content), (dataDir home, Entry.dir), (home, Entry.dir)] := by
  have h1 : (latestFile home == home) = false := by simpa using latestFile_ne_home home
  have h2 : (latestFile home == dataDir home) = false := by
    simpa using latestFile_ne_dataDir home
  have h3 : (dataDir home == latestFile home) = false := by
    simpa using fun e => latestFile_ne_dataDir home e.symm
  have h4 : (dataDir home == home) = false := by simpa using dataDir_ne_home home
  refine ⟨⟨?_, ?_⟩, ?_, ?_⟩
  · rw [init_of_exists home _ Entry.dir (by simp [List.lookup])]
    rfl
  · simp [List.lookup, h1, h2]
  · rw [init_of_fresh home _ (by simp [List.lookup]) (by simp [List.lookup, h4])
      (by simp [List.lookup, h1])]
  · rw [init_of_exists home _ Entry.dir (by simp [List.lookup, h3])]
    rfl

/-- C6, as stated, fails: when the home directory does not exist, `mkdir`
fails with `ENOENT` in the first call and again in the second, which
therefore raises an error. -/
theorem init_twice_raises :
    (init "/home/u" (init "/home/u" ⟨[], [], [], []⟩).2).1 =
      Except.error (systemError "ENOENT" "mkdir" "/home/u/.h-data") := by
  rfl

/-- C6, amended: whenever creating the data directory does not fail for
another reason than "already exists", a second call of `init` made directly
after a first one raises no error and leaves the file system as the first
call left it.  Starting from a fresh home directory the two calls leave
exactly one data directory and one cache file, and a cache file that already
has content is never truncated or rewritten by `init`. -/
theorem init_idempotent (home : String) (w : World)
    (h : mkdirError (dataDir home) w.fs = none ∨
      mkdirError (dataDir home) w.fs = some "EEXIST") :
    ((init home (init home w).2).1 = Except.ok () ∧
      (init home (init home w).2).2.fs = (init home w).2.fs) ∧
    (∀ w0 : World, w0.fs.lookup home = some Entry.dir →
      w0.fs.lookup (dataDir home) = none → w0.fs.lookup (latestFile home) = none →
      (init home (init home w0).2).1 = Except.ok () ∧
      (init home (init home w0).2).2.fs =
        (latestFile home, Entry.file "") :: (dataDir home, Entry.dir) :: w0.fs) ∧
    (∀ (w0 : World) (content : String),
      w0.fs.lookup (latestFile home) = some (Entry.file content) →
        (init home w0).2.fs.lookup (latestFile home) = some (Entry.file content) ∧
        ∀ p d, Call.writeFile p d ∈ (init home w0).2.calls → Call.writeFile p d ∈ w0.calls) := by
  have twice : ∀ v : World, (∃ e, v.fs.lookup (dataDir home) = some e) →
      (init home v).1 = Except.ok () ∧ (init home v).2.fs = v.fs := by
    intro v ⟨e, he⟩
    rw [init_of_exists home v e he]
    exact ⟨rfl, rfl⟩
  refine ⟨twice _ (init_dataDir_exists home w h), ?_, init_keeps_content home⟩
  intro w0 hh hd hl
  have hf := init_of_fresh home w0 hh hd hl
  have h3 : (dataDir home == latestFile home) = false := by
    simpa using fun e => latestFile_ne_dataDir home e.symm
  have := twice (init home w0).2 ⟨Entry.dir, by rw [hf]; simp [List.lookup, h3]⟩
  rw [hf] at this ⊢
  exact this

/-- The amended C6 at the fresh home directory `/home/u`: the second call
returns, and the two calls leave one data directory and one empty cache
file. -/
theorem init_idempotent_witness :
    (mkdirError (dataDir "/home/u") [("/home/u", Entry.dir)] = none ∨
        mkdirError (dataDir "/home/u") [("/home/u", Entry.dir)] = some "EEXIST") ∧
      ((init "/home/u" (init "/home/u" ⟨[("/home/u", Entry.dir)], [], [], []⟩).2).1 =
          Except.ok () ∧
        (init "/home/u" (init "/home/u" ⟨[("/home/u", Entry.dir)], [], [], []⟩).2).2.fs =
          (init "/home/u" ⟨[("/home/u", Entry.dir)], [], [], []⟩).2.fs) ∧
      (init "/home/u" (init "/home/u" ⟨[("/home/u", Entry.dir)], [], [], []⟩).2).2.fs =
        [("/home/u/.h-data/latest.json", Entry.file ""), ("/home/u/.h-data", Entry.dir),
          ("/home/u", Entry.dir)] :=
  ⟨by decide,
    (init_idempotent "/home/u" ⟨[("/home/u", Entry.dir)], [], [], []⟩ (by decide)).1,
    ((init_idempotent "/home/u" ⟨[("/home/u", Entry.dir)], [], [], []⟩ (by decide)).2.1
      ⟨[("/home/u", Entry.dir)], [], [], []⟩ (by decide) (by decide) (by decide)).2⟩

/-! ## The editor launcher: the properties -/

theorem fsWriteFile_calls (path data : String) (w : World) :
    (fsWriteFile path data w).2.calls = w.calls ++ [Call.writeFile path data] ∧
      (fsWriteFile path data w).2.stdout = w.stdout ∧
      (fsWriteFile path data w).2.stderr = w.stderr := by
  unfold fsWriteFile
  simp only [World.record]
  split
  · exact ⟨rfl, rfl, rfl⟩
  · exact ⟨rfl, rfl, rfl⟩
  · split <;> exact ⟨rfl, rfl, rfl⟩

/-- What `openEditor` does once the temporary file is written and the editor
has exited with a code other than `0`. -/
theorem openEditor_of_failure (env : Env) (t0 t1 : Date) (w : World) (fs : FileSystem)
    (code : Option Nat)
    (hw : (fsWriteFile (getTempFilePath env.toLowerCase env.home t0 "") placeholder w).1 = Except.ok ())
    (hc : env.child (editorOf env) (getTempFilePath env.toLowerCase env.home t0 "")
      (fsWriteFile (getTempFilePath env.toLowerCase env.home t0 "") placeholder w).2.fs =
        ChildResult.exit fs code)
    (hn : code ≠ some 0) :
    openEditor env t0 t1 w =
      (Promise.rejected (newError ("Editor exited with code: " ++ showCode code)),
        ⟨fs, w.calls ++ [Call.writeFile (getTempFilePath env.toLowerCase env.home t0 "") placeholder,
          Call.spawn (editorOf env) (getTempFilePath env.toLowerCase env.home t0 "")], w.stdout, w.stderr⟩) := by
  obtain ⟨h1, h2, h3⟩ := fsWriteFile_calls (getTempFilePath env.toLowerCase env.home t0 "") placeholder w
  rcases hf : fsWriteFile (getTempFilePath env.toLowerCase env.home t0 "") placeholder w with ⟨r, w1⟩
  rw [hf] at hw hc h1 h2 h3
  simp only at hw hc h1 h2 h3
  subst hw
  simp only [openEditor, hf, World.record, hc, hn, if_false, h1, h2, h3, List.append_assoc,
    List.singleton_append]

/-- Whatever `openEditor` does, it resolves, reads or renames only when the
editor has exited with code `0`. -/
theorem openEditor_only_after_zero (env : Env) (t0 t1 : Date) (w : World) :
    (∃ fs, env.child (editorOf env) (getTempFilePath env.toLowerCase env.home t0 "")
        (fsWriteFile (getTempFilePath env.toLowerCase env.home t0 "") placeholder w).2.fs =
          ChildResult.exit fs (some 0)) ∨
      ((∀ p, (openEditor env t0 t1 w).1 ≠ Promise.resolved p) ∧
        ∀ c ∈ (openEditor env t0 t1 w).2.calls,
          c ∈ w.calls ∨ c = Call.writeFile (getTempFilePath env.toLowerCase env.home t0 "") placeholder ∨
            c = Call.spawn (editorOf env) (getTempFilePath env.toLowerCase env.home t0 "")) := by
  obtain ⟨h1, -, -⟩ := fsWriteFile_calls (getTempFilePath env.toLowerCase env.home t0 "") placeholder w
  rcases hf : fsWriteFile (getTempFilePath env.toLowerCase env.home t0 "") placeholder w with ⟨r, w1⟩
  rw [hf] at h1
  simp only at h1
  cases r with
  | error e =>
    right
    simp only [openEditor, hf, h1]
    refine ⟨fun p h => by simp at h, fun c hc => ?_⟩
    rcases List.mem_append.1 hc with h | h
    · exact Or.inl h
    · exact Or.inr (Or.inl (by simpa using h))
  | ok u =>
    cases u
    rcases hch : env.child (editorOf env) (getTempFilePath env.toLowerCase env.home t0 "") w1.fs with
      ⟨fs, code⟩ | e
    · by_cases h0 : code = some 0
      · left
        exact ⟨fs, by rw [h0]⟩
      · right
        have hw : (fsWriteFile (getTempFilePath env.toLowerCase env.home t0 "") placeholder w).1 =
            Except.ok () := by rw [hf]
        have hc : env.child (editorOf env) (getTempFilePath env.toLowerCase env.home t0 "")
            (fsWriteFile (getTempFilePath env.toLowerCase env.home t0 "") placeholder w).2.fs =
              ChildResult.exit fs code := by rw [hf]; exact hch
        rw [openEditor_of_failure env t0 t1 w fs code hw hc h0]
        exact ⟨fun p h => by simp at h, fun c hc => by simpa [or_assoc] using hc⟩
    · right
      simp only [openEditor, hf, World.record, hch, h1]
      exact ⟨fun p h => by simp at h, fun c hc => by simpa [or_assoc] using hc⟩

theorem dirname_getTempFilePath {lower : String → String} (hl : LowerCaseLaws lower)
    (home : String) (date : Date) (prompt : String) :
    dirname (getTempFilePath lower home date prompt) = dataDir home :=
  dirname_pathJoin _ _ fun c hc => by
    have h := tempFileName_plain hl date prompt c hc
    simp only [isPlain, Bool.and_eq_true, bne_iff_ne] at h
    exact h.1.1

/-- What `openEditor` does once the editor has exited with code `0` and left
a file with the text `p` at the temporary path: the text is read back and
returned, and the file is renamed to its archival path. -/
theorem openEditor_of_success (env : Env) (hl : LowerCaseLaws env.toLowerCase) (t0 t1 : Date)
    (w : World) (fs : FileSystem) (p : String)
    (hw : (fsWriteFile (getTempFilePath env.toLowerCase env.home t0 "") placeholder w).1 = Except.ok ())
    (hc : env.child (editorOf env) (getTempFilePath env.toLowerCase env.home t0 "")
      (fsWriteFile (getTempFilePath env.toLowerCase env.home t0 "") placeholder w).2.fs =
        ChildResult.exit fs (some 0))
    (hp : fs.lookup (getTempFilePath env.toLowerCase env.home t0 "") = some (Entry.file p))
    (hd : fs.lookup (dataDir env.home) = some Entry.dir)
    (hq : fs.lookup (getTempFilePath env.toLowerCase env.home t1 p) ≠ some Entry.dir) :
    openEditor env t0 t1 w =
      (Promise.resolved p,
        ⟨FileSystem.put (fs.filter fun q => q.1 != getTempFilePath env.toLowerCase env.home t0 "")
            (getTempFilePath env.toLowerCase env.home t1 p) (Entry.file p),
          w.calls ++ [Call.writeFile (getTempFilePath env.toLowerCase env.home t0 "") placeholder,
            Call.spawn (editorOf env) (getTempFilePath env.toLowerCase env.home t0 ""),
            Call.readFile (getTempFilePath env.toLowerCase env.home t0 ""),
            Call.rename (getTempFilePath env.toLowerCase env.home t0 "") (getTempFilePath env.toLowerCase env.home t1 p)],
          w.stdout ++ ["Saving prompt to: " ++ getTempFilePath env.toLowerCase env.home t1 p], w.stderr⟩) := by
  obtain ⟨h1, h2, h3⟩ := fsWriteFile_calls (getTempFilePath env.toLowerCase env.home t0 "") placeholder w
  rcases hf : fsWriteFile (getTempFilePath env.toLowerCase env.home t0 "") placeholder w with ⟨r, w1⟩
  rw [hf] at hw hc h1 h2 h3
  simp only at hw hc h1 h2 h3
  subst hw
  have hren : ∀ v : World, v.fs = fs →
      fsRename (getTempFilePath env.toLowerCase env.home t0 "") (getTempFilePath env.toLowerCase env.home t1 p) v =
        (Except.ok (), ⟨FileSystem.put (fs.filter fun q => q.1 != getTempFilePath env.toLowerCase env.home t0 "")
          (getTempFilePath env.toLowerCase env.home t1 p) (Entry.file p),
          v.calls ++ [Call.rename (getTempFilePath env.toLowerCase env.home t0 "")
            (getTempFilePath env.toLowerCase env.home t1 p)], v.stdout, v.stderr⟩) := by
    intro v hv
    simp only [fsRename, hv, hp, dirname_getTempFilePath hl, hd, parentError, World.record]
    cases hl : fs.lookup (getTempFilePath env.toLowerCase env.home t1 p) with
    | none => simp [hv]
    | some e =>
      cases e with
      | file c => simp [hv]
      | dir => exact absurd hl hq
  simp only [openEditor, hf, World.record, hc, if_true, fsReadFile, hp]
  rw [hren _ rfl]
  simp [h1, h2, h3]

/-- C7: for every non-zero exit code `n` reported by the editor process,
`openEditor` fails with an error whose message contains `n` and performs no
read and no rename (its only calls are the write of the placeholder and the
spawn), so the file system is as the editor left it and the temporary file
remains at its path; and, for every run, the file is read back, returned as
the prompt and renamed only when the exit code is `0`. -/
theorem openEditor_exit_code (env : Env) (t0 t1 : Date) (w : World) (fs : FileSystem) (n : Nat)
    (hw : (fsWriteFile (getTempFilePath env.toLowerCase env.home t0 "") placeholder w).1 = Except.ok ())
    (hc : env.child (editorOf env) (getTempFilePath env.toLowerCase env.home t0 "")
      (fsWriteFile (getTempFilePath env.toLowerCase env.home t0 "") placeholder w).2.fs =
        ChildResult.exit fs (some n))
    (hn : n ≠ 0) :
    openEditor env t0 t1 w =
        (Promise.rejected (newError ("Editor exited with code: " ++ toString n)),
          ⟨fs, w.calls ++ [Call.writeFile (getTempFilePath env.toLowerCase env.home t0 "") placeholder,
            Call.spawn (editorOf env) (getTempFilePath env.toLowerCase env.home t0 "")], w.stdout, w.stderr⟩) ∧
      (openEditor env t0 t1 w).2.fs.lookup (getTempFilePath env.toLowerCase env.home t0 "") =
        fs.lookup (getTempFilePath env.toLowerCase env.home t0 "") ∧
      ∀ (env0 : Env) (s0 s1 : Date) (w0 : World),
        (∃ fs0, env0.child (editorOf env0) (getTempFilePath env0.toLowerCase env0.home s0 "")
          (fsWriteFile (getTempFilePath env0.toLowerCase env0.home s0 "") placeholder w0).2.fs =
            ChildResult.exit fs0 (some 0)) ∨
        ((∀ p, (openEditor env0 s0 s1 w0).1 ≠ Promise.resolved p) ∧
          ∀ c ∈ (openEditor env0 s0 s1 w0).2.calls,
            c ∈ w0.calls ∨ c = Call.writeFile (getTempFilePath env0.toLowerCase env0.home s0 "") placeholder ∨
              c = Call.spawn (editorOf env0) (getTempFilePath env0.toLowerCase env0.home s0 "")) := by
  have h := openEditor_of_failure env t0 t1 w fs (some n) hw hc (by simpa using hn)
  refine ⟨h, ?_, fun env0 s0 s1 w0 => openEditor_only_after_zero env0 s0 s1 w0⟩
  rw [h]

/-- C7 at an editor that exits with code 2: the message is
`Editor exited with code: 2` and the temporary file is still at its path. -/
theorem openEditor_exit_code_witness :
    (2 : Nat) ≠ 0 ∧
      openEditor ⟨"/home/u", none, sampleLower, fun _ _ fs => ChildResult.exit fs (some 2)⟩
          ⟨2024, 1, 2, 3, 4, 5, 6⟩ ⟨2024, 1, 2, 3, 4, 9, 0⟩
          ⟨[("/home/u/.h-data", Entry.dir), ("/home/u", Entry.dir)], [], [], []⟩ =
        (Promise.rejected (newError "Editor exited with code: 2"),
          ⟨[("/home/u/.h-data/prompt_2024-01-02T03-04-05-006Z_.txt", Entry.file placeholder),
              ("/home/u/.h-data", Entry.dir), ("/home/u", Entry.dir)],
            [Call.writeFile "/home/u/.h-data/prompt_2024-01-02T03-04-05-006Z_.txt" placeholder,
              Call.spawn "vi" "/home/u/.h-data/prompt_2024-01-02T03-04-05-006Z_.txt"],
            [], []⟩) :=
  ⟨by decide,
    (openEditor_exit_code ⟨"/home/u", none, sampleLower, fun _ _ fs => ChildResult.exit fs (some 2)⟩
      ⟨2024, 1, 2, 3, 4, 5, 6⟩ ⟨2024, 1, 2, 3, 4, 9, 0⟩
      ⟨[("/home/u/.h-data", Entry.dir), ("/home/u", Entry.dir)], [], [], []⟩
      [("/home/u/.h-data/prompt_2024-01-02T03-04-05-006Z_.txt", Entry.file placeholder),
        ("/home/u/.h-data", Entry.dir), ("/home/u", Entry.dir)] 2 rfl rfl (by decide)).1⟩

/-- An editor that writes `hello world foo bar baz qux` and exits with code
`0`: the text is returned, and the file is moved from its temporary path to
the archival one, named after the first five words. -/
theorem openEditor_success_example :
    openEditor
        ⟨"/home/u", some "nano", sampleLower, fun _ arg fs =>
          ChildResult.exit (fs.put arg (Entry.file "hello world foo bar baz qux")) (some 0)⟩
        ⟨2024, 1, 2, 3, 4, 5, 6⟩ ⟨2024, 1, 2, 3, 4, 9, 0⟩
        ⟨[("/home/u/.h-data", Entry.dir), ("/home/u", Entry.dir)], [], [], []⟩ =
      (Promise.resolved "hello world foo bar baz qux",
        ⟨[("/home/u/.h-data/prompt_2024-01-02T03-04-09-000Z_hello-world-foo-bar-baz.txt",
              Entry.file "hello world foo bar baz qux"),
            ("/home/u/.h-data", Entry.dir), ("/home/u", Entry.dir)],
          [Call.writeFile "/home/u/.h-data/prompt_2024-01-02T03-04-05-006Z_.txt" placeholder,
            Call.spawn "nano" "/home/u/.h-data/prompt_2024-01-02T03-04-05-006Z_.txt",
            Call.readFile "/home/u/.h-data/prompt_2024-01-02T03-04-05-006Z_.txt",
            Call.rename "/home/u/.h-data/prompt_2024-01-02T03-04-05-006Z_.txt"
              "/home/u/.h-data/prompt_2024-01-02T03-04-09-000Z_hello-world-foo-bar-baz.txt"],
          ["Saving prompt to: " ++
            "/home/u/.h-data/prompt_2024-01-02T03-04-09-000Z_hello-world-foo-bar-baz.txt"],
          []⟩) := by
  rfl

/-! ## The action: the properties -/

theorem splitOnP_append_cons {α : Type} (p : α → Bool) (a b : List α) (x : α)
    (hx : p x = true) :
    (a ++ x :: b).splitOnP p = a.splitOnP p ++ b.splitOnP p := by
  induction a with
  | nil => simp [hx]
  | cons y ys ih =>
    by_cases hy : p y = true
    · simp [hy, ih]
    · cases hs : ys.splitOnP p with
      | nil => exact absurd hs (List.splitOnP_ne_nil _ _)
      | cons z zs => simp [hy, ih, hs, List.modifyHead]

/-- The lines of a text that ends with a line feed followed by `rest` end
with the lines of `rest`. -/
theorem lines_append (pre rest v : String) (h : v ∈ lines rest) :
    v ∈ lines (pre ++ "\n" ++ rest) := by
  simp only [lines, List.mem_map, String.data_append] at h ⊢
  obtain ⟨a, ha, rfl⟩ := h
  refine ⟨a, ?_, rfl⟩
  rw [List.append_assoc, List.singleton_append, List.splitOn,
    splitOnP_append_cons _ _ _ _ (by simp)]
  exact List.mem_append_right _ ha

/-- The `--continue` block throws before it reads anything: the argument of
`fs.readFile` names the `const` that the same statement declares. -/
theorem loadConversation_throws {J : Type} (ext : Externals J) (home : String) (w : World) :
    loadConversation ext home w = (Except.error (referenceError "latestFile"), w) := by
  rfl

/-- C1: for every model string `m`, the model check raises no error when `m`
is one of the six allow-listed names (the default `gpt-3.5-turbo` among them);
for every other `m` it raises an error whose message contains every
allow-listed name on a line of its own, indented by two spaces, and the
action prints that message and exits with status 1. -/
theorem checkModel_spec (m : String) :
    (validModels = ["gpt-4", "gpt-4-0314", "gpt-4-32k", "gpt-4-32k-0314", "gpt-3.5-turbo",
        "gpt-3.5-turbo-0301"] ∧ defaultModel ∈ validModels) ∧
      (m ∈ validModels → checkModel m = Except.ok ()) ∧
      (m ∉ validModels →
        ∃ err, checkModel m = Except.error err ∧
          (∀ v ∈ validModels, ("  " ++ v) ∈ lines err.message) ∧
          ∀ (J : Type) (ext : Externals J) (env : Env) (t0 t1 : Date) (prompt : Option String)
            (continueFlag : Bool) (w : World),
            action ext env t0 t1 ⟨m, prompt, continueFlag⟩ w =
              (Outcome.exited 1, { w with stderr := w.stderr ++ [err.message] })) := by
  refine ⟨⟨rfl, by decide⟩, ?_, ?_⟩
  · intro h
    simp [checkModel, h]
  · intro h
    have hc : checkModel m = Except.error
        (newError ("Model '" ++ m ++ "' does not exist, choose one from:\n" ++
          formattedModels)) := by
      simp [checkModel, h]
    refine ⟨_, hc, ?_, ?_⟩
    · intro v hv
      have h1 : "Model '" ++ m ++ "' does not exist, choose one from:\n" ++ formattedModels =
          ("Model '" ++ m ++ "' does not exist, choose one from:") ++ "\n" ++
            formattedModels := by
        apply String.ext
        simp only [String.data_append, List.append_assoc]
        rfl
      simp only [newError, h1]
      apply lines_append
      revert v
      decide
    · intro J ext env t0 t1 prompt continueFlag w
      simp only [action, actionBody, hc]

/-- C1 at the allow-listed model `gpt-4` and at the unknown model `gpt-5`. -/
theorem checkModel_spec_witness :
    ("gpt-4" ∈ validModels ∧ checkModel "gpt-4" = Except.ok ()) ∧
      "gpt-5" ∉ validModels ∧
      ∃ err, checkModel "gpt-5" = Except.error err ∧
        (∀ v ∈ validModels, ("  " ++ v) ∈ lines err.message) ∧
        ∀ (J : Type) (ext : Externals J) (env : Env) (t0 t1 : Date) (prompt : Option String)
          (continueFlag : Bool) (w : World),
          action ext env t0 t1 ⟨"gpt-5", prompt, continueFlag⟩ w =
            (Outcome.exited 1, { w with stderr := w.stderr ++ [err.message] }) :=
  ⟨⟨by decide, (checkModel_spec "gpt-4").2.1 (by decide)⟩, by decide,
    (checkModel_spec "gpt-5").2.2 (by decide)⟩

/-- C2 fails on the code: with `--continue` and an empty cache file, the
loader throws a `ReferenceError` before the file is read; the action prints
its message and exits with status 1, and `ask` is never reached. -/
theorem continue_empty_cache_throws {J : Type} (ext : Externals J) (lower : String → String)
    (child : String → String → FileSystem → ChildResult) (t0 t1 : Date) :
    action ext ⟨"/home/u", none, lower, child⟩ t0 t1 ⟨"gpt-3.5-turbo", some "hi", true⟩
        ⟨[("/home/u/.h-data/latest.json", Entry.file ""), ("/home/u/.h-data", Entry.dir),
          ("/home/u", Entry.dir)], [], [], []⟩ =
      (Outcome.exited 1,
        ⟨[("/home/u/.h-data/latest.json", Entry.file ""), ("/home/u/.h-data", Entry.dir),
          ("/home/u", Entry.dir)], [Call.mkdir "/home/u/.h-data"], [],
          ["Cannot access 'latestFile' before initialization"]⟩) := by
  rfl

/-- C3 fails on the code: with `--continue` and a cache file that holds text
that is not JSON, the loader throws a `ReferenceError` before the file is
read: the message does not name the path of the cache file and the error has
no cause. -/
theorem continue_invalid_cache_throws {J : Type} (ext : Externals J)
    (lower : String → String) (child : String → String → FileSystem → ChildResult)
    (t0 t1 : Date) :
    loadConversation ext "/home/u"
        ⟨[("/home/u/.h-data/latest.json", Entry.file "not json"),
          ("/home/u/.h-data", Entry.dir), ("/home/u", Entry.dir)],
          [Call.mkdir "/home/u/.h-data"], [], []⟩ =
      (Except.error
        ⟨"ReferenceError", "Cannot access 'latestFile' before initialization", none, none⟩,
        ⟨[("/home/u/.h-data/latest.json", Entry.file "not json"),
          ("/home/u/.h-data", Entry.dir), ("/home/u", Entry.dir)],
          [Call.mkdir "/home/u/.h-data"], [], []⟩) ∧
    action ext ⟨"/home/u", none, lower, child⟩ t0 t1 ⟨"gpt-3.5-turbo", some "hi", true⟩
        ⟨[("/home/u/.h-data/latest.json", Entry.file "not json"),
          ("/home/u/.h-data", Entry.dir), ("/home/u", Entry.dir)], [], [], []⟩ =
      (Outcome.exited 1,
        ⟨[("/home/u/.h-data/latest.json", Entry.file "not json"),
          ("/home/u/.h-data", Entry.dir), ("/home/u", Entry.dir)],
          [Call.mkdir "/home/u/.h-data"], [],
          ["Cannot access 'latestFile' before initialization"]⟩) ∧
    ¬ (latestFile "/home/u").data <:+:
      "Cannot access 'latestFile' before initialization".data := by
  refine ⟨rfl, rfl, by decide⟩

end H
